import Mathlib

/-!
Verification of the `genesis` backend (FastAPI service).

Shallow embedding of the three Python source files:
  * `src/backend/main.py`  — streaming `/generate_project` endpoint, diff
    extraction, project-name normalization, disk materializer, routes;
  * `src/main.py`          — simple `/generate` endpoint;
  * `src/backend/my-api/app.py` — `/create_project` endpoint.

Text is modelled as `List Char` (Python `str` is a sequence of code points),
fallible library calls as `Option`/`Except`, and the external world
(OpenAI, Supabase, GitHub, Vercel, the file system) as an explicit oracle
record whose fields say how each external call would respond.
-/

namespace Backend

/-! ### Python `str.split(sep)` for a one-character separator

`buffer.split("\n")` in `event_stream` (src/backend/main.py:404).
Python semantics: the result always has `count sep + 1` elements and keeps
empty pieces, e.g. `"a\n".split("\n") == ["a", ""]`. -/

def splitOnChar (sep : Char) : List Char → List (List Char)
  | [] => [[]]
  | c :: cs =>
    if c = sep then [] :: splitOnChar sep cs
    else
      match splitOnChar sep cs with
      | [] => [[c]]
      | l :: ls => (c :: l) :: ls

/-! ### The line reassembler of `event_stream`

src/backend/main.py:402-407:
```
buffer += text_piece
lines = buffer.split("\n")
complete_lines = lines[:-1]
buffer = lines[-1]
```
`splitComplete s = (lines[:-1], lines[-1])` for `lines = s.split("\n")`
(proved as `splitComplete_eq_split` below). -/

def consHead (c : Char) (p : List (List Char) × List Char) : List (List Char) × List Char :=
  match p.1 with
  | [] => ([], c :: p.2)
  | l :: ls => ((c :: l) :: ls, p.2)

def splitComplete : List Char → List (List Char) × List Char
  | [] => ([], [])
  | c :: cs =>
    if c = '\n' then ([] :: (splitComplete cs).1, (splitComplete cs).2)
    else consHead c (splitComplete cs)

/-- Processing a list of stream fragments, threading the partial-line buffer
(the `for chunk in stream_resp` loop of src/backend/main.py:371-407, restricted
to line reassembly): each fragment is appended to the buffer and the
newline-terminated pieces are emitted as complete lines. Returns all complete
lines emitted, in order, with the final buffer. -/
def processFragments (buf : List Char) : List (List Char) → List (List Char) × List Char
  | [] => ([], buf)
  | f :: fs =>
    let r := splitComplete (buf ++ f)
    let r2 := processFragments r.2 fs
    (r.1 ++ r2.1, r2.2)

/-! ### `normalize_project_name` (src/backend/main.py:160-163)

```
def normalize_project_name(name: str) -> str:
    name = name.lower()
    name = re.sub(r"[^a-z0-9_.-]", "_", name)
    return re.sub(r"_+", "_", name)[:100]
```
`str.lower` is modelled on ASCII (`Char.toLower`).  For non-ASCII input both
the Python original and the model produce a character outside `[a-z0-9_.-]`,
which the next step replaces by `_` (a handful of exotic code points whose
Unicode lowercase is ASCII, e.g. the Kelvin sign, lower differently, but
every divergent output still goes through the same character filter, so the
properties proved below hold for the Python original as well). -/

/-- Characters matched by the class `[a-z0-9_.-]` of
`re.sub(r"[^a-z0-9_.-]", "_", name)`. -/
def isAllowedProjectChar (c : Char) : Bool :=
  ('a' ≤ c && c ≤ 'z') || ('0' ≤ c && c ≤ '9') || c = '_' || c = '.' || c = '-'

/-- `re.sub(r"_+", "_", s)`: every maximal run of underscores becomes a single
underscore (an underscore is dropped exactly when the collapsed tail already
starts with one). -/
def collapseUnderscoreRuns (l : List Char) : List Char :=
  l.foldr (fun c acc => if c = '_' ∧ acc.head? = some '_' then acc else c :: acc) []

/-- `normalize_project_name`: lowercase, replace characters outside
`[a-z0-9_.-]` by `_`, collapse underscore runs, truncate to 100 characters
(Python `[:100]` takes the first 100 code points). -/
def normalize_project_name (s : List Char) : List Char :=
  (collapseUnderscoreRuns
    ((s.map Char.toLower).map (fun c => if isAllowedProjectChar c then c else '_'))).take 100

/-! ### Python `str.splitlines()` and `try_extract_content_from_diff`

src/backend/main.py:286-321.  `str.splitlines()` splits at `\n`, `\r\n`, `\r`
and the other Unicode line boundaries, and produces no trailing empty line. -/

def isLineBreakChar (c : Char) : Bool :=
  c = '\n' || c = '\r' || c = '\x0b' || c = '\x0c' ||
  c = '\x1c' || c = '\x1d' || c = '\x1e' || c = '\x85' || c = '\u2028' || c = '\u2029'

def pySplitlines : List Char → List (List Char)
  | [] => []
  | '\r' :: '\n' :: rest => [] :: pySplitlines rest
  | c :: rest =>
    if isLineBreakChar c then [] :: pySplitlines rest
    else
      match pySplitlines rest with
      | [] => [[c]]
      | l :: ls => (c :: l) :: ls

/-- Python `"\n".join(lines)`. -/
def joinNl : List (List Char) → List Char
  | [] => []
  | [l] => l
  | l :: ls => l ++ '\n' :: joinNl ls

/-- The loop body of `try_extract_content_from_diff` (src/backend/main.py:299-316):
```
for ln in lines:
    if ln.startswith('+++ '): collect = True; continue
    if not collect: continue
    if ln.startswith('+') and not ln.startswith('+++'): new_lines.append(ln[1:])
    elif ln.startswith(' '): new_lines.append(ln[1:])
    elif ln.startswith('-'): continue
    else: continue
```
(the `'-'` case and the final `else` both skip, so they are merged). -/
def collectDiffLines : Bool → List (List Char) → List (List Char)
  | _, [] => []
  | collect, ln :: rest =>
    if ['+', '+', '+', ' '].isPrefixOf ln then collectDiffLines true rest
    else if !collect then collectDiffLines collect rest
    else if ['+'].isPrefixOf ln && !(['+', '+', '+'].isPrefixOf ln) then
      ln.tail :: collectDiffLines collect rest
    else if [' '].isPrefixOf ln then ln.tail :: collectDiffLines collect rest
    else collectDiffLines collect rest

/-- `try_extract_content_from_diff` (src/backend/main.py:286-321), on string
input.  Total by construction: on a `str` argument the Python body raises no
exception, so the `try/except` wrapper is invisible (the caller passing a
non-`str` `diff` is modelled separately in `patchSavedContent`).  Returns the
collected lines joined with `"\n"`, or `None` (here `none`) when nothing was
collected. -/
def try_extract_content_from_diff (diff_text : List Char) : Option (List Char) :=
  let new_lines := collectDiffLines false (pySplitlines diff_text)
  if new_lines.isEmpty then none
  else some (joinNl new_lines)

/-- Claim-side line selector, following the claim's wording: addition lines
(leading `+` stripped, excluding `+++` lines) and context lines (leading
space stripped). -/
def diffLineSelect (ln : List Char) : Option (List Char) :=
  if ['+', '+', '+'].isPrefixOf ln then none
  else if ['+'].isPrefixOf ln then some ln.tail
  else if [' '].isPrefixOf ln then some ln.tail
  else none

/-- Claim-side: the lines strictly after the first line starting with `+++ `,
if any. -/
def linesAfterFirstMarker : List (List Char) → Option (List (List Char))
  | [] => none
  | ln :: rest =>
    if ['+', '+', '+', ' '].isPrefixOf ln then some rest
    else linesAfterFirstMarker rest

/-- Claim-side reconstruction of the diff-extraction result. -/
def specDiffExtract (diff_text : List Char) : Option (List Char) :=
  match linesAfterFirstMarker (pySplitlines diff_text) with
  | none => none
  | some post =>
    let sel := post.filterMap diffLineSelect
    if sel.isEmpty then none else some (joinNl sel)

/-! ### Python values

Results of `json.loads` / `ast.literal_eval` on one line of model output
(src/backend/main.py:414-422).  Numeric literals are kept as their lexeme:
no code path in `event_stream` computes with numbers — only truthiness is
inspected, which `pyNumLexemeTruthy` decides from the lexeme. -/

inductive PyVal where
  | pnone : PyVal
  | pbool : Bool → PyVal
  | pnum : List Char → PyVal
  | pstr : List Char → PyVal
  | plist : List PyVal → PyVal
  | ptuple : List PyVal → PyVal
  | pset : List PyVal → PyVal
  | pdict : List (PyVal × PyVal) → PyVal

/-- Truthiness of a numeric literal: `NaN`/`Infinity` are truthy; otherwise
the number is zero — hence falsy — exactly when its mantissa (the digits
before any exponent marker) has no nonzero digit. -/
def pyNumLexemeTruthy (lex : List Char) : Bool :=
  if lex = "NaN".data ∨ lex = "Infinity".data ∨ lex = "-Infinity".data then true
  else (lex.takeWhile (fun c => c ≠ 'e' ∧ c ≠ 'E')).any (fun c => '1' ≤ c && c ≤ '9')

/-- Python truthiness (`if x:`): `None`, `False`, zero, and empty
containers/strings are falsy. -/
def pyTruthy : PyVal → Bool
  | .pnone => false
  | .pbool b => b
  | .pnum lex => pyNumLexemeTruthy lex
  | .pstr s => !s.isEmpty
  | .plist l => !l.isEmpty
  | .ptuple l => !l.isEmpty
  | .pset l => !l.isEmpty
  | .pdict l => !l.isEmpty

/-- `isinstance(x, dict)`. -/
def PyVal.isDict : PyVal → Bool
  | .pdict _ => true
  | _ => false

mutual

/-- Python `==`, structurally.  (Python's cross-type numeric equalities such
as `1 == 1.0` are not modelled — the dictionary keys appearing in the claims
are strings, where `==` is exactly structural equality.) -/
def pyEq : PyVal → PyVal → Bool
  | .pnone, .pnone => true
  | .pbool a, .pbool b => a == b
  | .pnum a, .pnum b => a == b
  | .pstr a, .pstr b => a == b
  | .plist a, .plist b => pyEqList a b
  | .ptuple a, .ptuple b => pyEqList a b
  | .pset a, .pset b => pyEqList a b
  | .pdict a, .pdict b => pyEqPairs a b
  | _, _ => false

def pyEqList : List PyVal → List PyVal → Bool
  | [], [] => true
  | a :: as, b :: bs => pyEq a b && pyEqList as bs
  | _, _ => false

def pyEqPairs : List (PyVal × PyVal) → List (PyVal × PyVal) → Bool
  | [], [] => true
  | (k, v) :: as, (k2, v2) :: bs => pyEq k k2 && pyEq v v2 && pyEqPairs as bs
  | _, _ => false

end

/-- `d.get(key)` on a parsed dict for a string key, with `None` default:
Python dict construction keeps the last value bound to a duplicated key, so
lookup takes the last matching pair. -/
def dictGet (kvs : List (PyVal × PyVal)) (k : List Char) : PyVal :=
  match (kvs.filter (fun kv => pyEq kv.1 (.pstr k))).getLast? with
  | some kv => kv.2
  | none => .pnone

/-- `d.get(key, default)` with a non-`None` default. -/
def dictGetD (kvs : List (PyVal × PyVal)) (k : List Char) (dflt : PyVal) : PyVal :=
  match (kvs.filter (fun kv => pyEq kv.1 (.pstr k))).getLast? with
  | some kv => kv.2
  | none => dflt

/-- `x == "lit"` for a Python value and a string literal. -/
def pyValIsStr (v : PyVal) (s : List Char) : Bool :=
  match v with
  | .pstr t => t == s
  | _ => false

/-- Python `str.strip()` (ASCII whitespace; exotic Unicode space code points
are not modelled). Used on each complete line (src/backend/main.py:410). -/
def pyStripChar (c : Char) : Bool :=
  c = ' ' || c = '\t' || c = '\n' || c = '\r' || c = '\x0b' || c = '\x0c'

def pyStrip (s : List Char) : List Char :=
  ((s.dropWhile pyStripChar).reverse.dropWhile pyStripChar).reverse

/-! ### `json.loads` (library call at src/backend/main.py:416)

A recursive-descent parser for RFC 8259 JSON with Python's `json` extras
(`NaN`, `Infinity`, `-Infinity`).  Strings as `List Char`; recursion is
fueled (`2·length + 8` over-approximates the call depth since every nested
call consumes input).  Divergences from CPython, none of which can change
how `event_stream` dispatches a line: surrogate-pair escapes are not
recombined (each `\uXXXX` becomes one code point, invalid scalars the NUL
character), and numbers are kept as lexemes. -/

def jsonWsChar (c : Char) : Bool := c = ' ' || c = '\t' || c = '\n' || c = '\r'

def skipJsonWs (s : List Char) : List Char := s.dropWhile jsonWsChar

def hexDigitVal (c : Char) : Nat :=
  if c.isDigit then c.toNat - 48
  else if 'a' ≤ c && c ≤ 'f' then c.toNat - 87
  else c.toNat - 55

def isHexDigitChar (c : Char) : Bool :=
  c.isDigit || ('a' ≤ c && c ≤ 'f') || ('A' ≤ c && c ≤ 'F')

/-- Body of a JSON string after the opening quote.  Strict: only the RFC
escapes are allowed and raw control characters are rejected. -/
def parseJsonStringBody : Nat → List Char → Option (List Char × List Char)
  | 0, _ => none
  | _, [] => none
  | fuel + 1, c :: rest =>
    if c = '"' then some ([], rest)
    else if c = '\\' then
      match rest with
      | [] => none
      | e :: r2 =>
        let cont (ch : Char) (r : List Char) : Option (List Char × List Char) :=
          (parseJsonStringBody fuel r).map (fun p => (ch :: p.1, p.2))
        if e = '"' then cont '"' r2
        else if e = '\\' then cont '\\' r2
        else if e = '/' then cont '/' r2
        else if e = 'b' then cont '\x08' r2
        else if e = 'f' then cont '\x0c' r2
        else if e = 'n' then cont '\n' r2
        else if e = 'r' then cont '\r' r2
        else if e = 't' then cont '\t' r2
        else if e = 'u' then
          match r2 with
          | h1 :: h2 :: h3 :: h4 :: r3 =>
            if isHexDigitChar h1 && isHexDigitChar h2 && isHexDigitChar h3 && isHexDigitChar h4 then
              cont (Char.ofNat
                (((hexDigitVal h1 * 16 + hexDigitVal h2) * 16 + hexDigitVal h3) * 16
                  + hexDigitVal h4)) r3
            else none
          | _ => none
        else none
    else if c.toNat < 32 then none
    else (parseJsonStringBody fuel rest).map (fun p => (c :: p.1, p.2))

/-- Optional fraction part `.[0-9]+` of a JSON number; returns its lexeme. -/
def parseJsonFrac (s : List Char) : Option (List Char × List Char) :=
  match s with
  | '.' :: r =>
    let ds := r.takeWhile Char.isDigit
    if ds.isEmpty then none
    else some ('.' :: ds, r.dropWhile Char.isDigit)
  | _ => some ([], s)

/-- Optional exponent part `[eE][+-]?[0-9]+` of a JSON number. -/
def parseJsonExp (s : List Char) : Option (List Char × List Char) :=
  match s with
  | e :: r =>
    if e = 'e' || e = 'E' then
      let sg : List Char × List Char :=
        match r with
        | '+' :: rr => (['+'], rr)
        | '-' :: rr => (['-'], rr)
        | _ => ([], r)
      let ds := sg.2.takeWhile Char.isDigit
      if ds.isEmpty then none
      else some (e :: (sg.1 ++ ds), sg.2.dropWhile Char.isDigit)
    else some ([], s)
  | [] => some ([], [])

/-- JSON number: `-? (0 | [1-9][0-9]*) frac? exp?`, kept as a lexeme. -/
def parseJsonNumber (s : List Char) : Option (List Char × List Char) := do
  let (sign, s1) :=
    match s with
    | '-' :: r => ((['-'] : List Char), r)
    | _ => (([] : List Char), s)
  match s1 with
  | [] => none
  | c :: r1 =>
    if c = '0' then do
      let (fr, s2) ← parseJsonFrac r1
      let (ex, s3) ← parseJsonExp s2
      pure (sign ++ '0' :: (fr ++ ex), s3)
    else if c.isDigit then do
      let ds := s1.takeWhile Char.isDigit
      let (fr, s2) ← parseJsonFrac (s1.dropWhile Char.isDigit)
      let (ex, s3) ← parseJsonExp s2
      pure (sign ++ ds ++ fr ++ ex, s3)
    else none

mutual

def parseJsonValue : Nat → List Char → Option (PyVal × List Char)
  | 0, _ => none
  | fuel + 1, s0 =>
    let s := skipJsonWs s0
    if ['t', 'r', 'u', 'e'].isPrefixOf s then some (.pbool true, s.drop 4)
    else if ['f', 'a', 'l', 's', 'e'].isPrefixOf s then some (.pbool false, s.drop 5)
    else if ['n', 'u', 'l', 'l'].isPrefixOf s then some (.pnone, s.drop 4)
    else if ['N', 'a', 'N'].isPrefixOf s then some (.pnum ['N', 'a', 'N'], s.drop 3)
    else if ['I', 'n', 'f', 'i', 'n', 'i', 't', 'y'].isPrefixOf s then
      some (.pnum "Infinity".data, s.drop 8)
    else if ['-', 'I', 'n', 'f', 'i', 'n', 'i', 't', 'y'].isPrefixOf s then
      some (.pnum "-Infinity".data, s.drop 9)
    else
      match s with
      | [] => none
      | c :: rest =>
        if c = '"' then
          match parseJsonStringBody (rest.length + 1) rest with
          | some (str, r) => some (.pstr str, r)
          | none => none
        else if c = '\x7b' then parseJsonObjBody fuel rest true []
        else if c = '[' then parseJsonArrBody fuel rest true []
        else
          match parseJsonNumber s with
          | some (lex, r) => some (.pnum lex, r)
          | none => none

/-- Object members after `{` (`first = true`) or after a `,`
(`first = false`; a close brace there would be a trailing comma, which JSON
rejects). -/
def parseJsonObjBody : Nat → List Char → Bool → List (PyVal × PyVal) →
    Option (PyVal × List Char)
  | 0, _, _, _ => none
  | fuel + 1, s0, first, acc =>
    let s := skipJsonWs s0
    match s with
    | '\x7d' :: rest => if first then some (.pdict acc.reverse, rest) else none
    | '"' :: krest =>
      match parseJsonStringBody (krest.length + 1) krest with
      | some (key, r1) =>
        match skipJsonWs r1 with
        | ':' :: r3 =>
          match parseJsonValue fuel r3 with
          | some (v, r4) =>
            match skipJsonWs r4 with
            | ',' :: r6 => parseJsonObjBody fuel r6 false ((PyVal.pstr key, v) :: acc)
            | '\x7d' :: r6 => some (.pdict ((PyVal.pstr key, v) :: acc).reverse, r6)
            | _ => none
          | none => none
        | _ => none
      | none => none
    | _ => none

def parseJsonArrBody : Nat → List Char → Bool → List PyVal → Option (PyVal × List Char)
  | 0, _, _, _ => none
  | fuel + 1, s0, first, acc =>
    let s := skipJsonWs s0
    match s with
    | ']' :: rest => if first then some (.plist acc.reverse, rest) else none
    | _ =>
      match parseJsonValue fuel s with
      | some (v, r1) =>
        match skipJsonWs r1 with
        | ',' :: r3 => parseJsonArrBody fuel r3 false (v :: acc)
        | ']' :: r3 => some (.plist (v :: acc).reverse, r3)
        | _ => none
      | none => none

end

/-- `json.loads(line)`: parse one value, require nothing but whitespace
afterwards; `none` models `JSONDecodeError`. -/
def jsonLoads (s : List Char) : Option PyVal :=
  match parseJsonValue (2 * s.length + 8) s with
  | some (v, rest) => if (skipJsonWs rest).isEmpty then some v else none
  | none => none

/-! ### `ast.literal_eval` (fallback at src/backend/main.py:420)

Python literal expressions: strings with `'` or `"` quotes, numbers with an
optional unary sign, `True`/`False`/`None`, lists, tuples (and parenthesized
literals), dicts and sets, all with trailing commas allowed.  Modelled
subset: string prefixes (`r`, `b`, `f`), triple quotes, implicit string
concatenation, hex/octal/binary integers, digit underscores, complex
numbers and `\N`/`\U`/octal escapes are not accepted (the model then
rejects a line CPython would accept — for the claims this only matters for
lines that would parse to a dict, where these forms are exotic). -/

/-- Body of a Python string literal after its opening quote `q`.  Unknown
escapes keep the backslash, as in CPython. -/
def parsePyStringBody (q : Char) : Nat → List Char → Option (List Char × List Char)
  | 0, _ => none
  | _, [] => none
  | fuel + 1, c :: rest =>
    if c = q then some ([], rest)
    else if c = '\\' then
      match rest with
      | [] => none
      | e :: r2 =>
        let cont (chs : List Char) (r : List Char) : Option (List Char × List Char) :=
          (parsePyStringBody q fuel r).map (fun p => (chs ++ p.1, p.2))
        if e = '\\' then cont ['\\'] r2
        else if e = '\'' then cont ['\''] r2
        else if e = '"' then cont ['"'] r2
        else if e = 'n' then cont ['\n'] r2
        else if e = 't' then cont ['\t'] r2
        else if e = 'r' then cont ['\r'] r2
        else if e = 'b' then cont ['\x08'] r2
        else if e = 'f' then cont ['\x0c'] r2
        else if e = 'v' then cont ['\x0b'] r2
        else if e = 'a' then cont ['\x07'] r2
        else if e = '0' then cont ['\x00'] r2
        else if e = 'x' then
          match r2 with
          | h1 :: h2 :: r3 =>
            if isHexDigitChar h1 && isHexDigitChar h2 then
              cont [Char.ofNat (hexDigitVal h1 * 16 + hexDigitVal h2)] r3
            else none
          | _ => none
        else if e = 'u' then
          match r2 with
          | h1 :: h2 :: h3 :: h4 :: r3 =>
            if isHexDigitChar h1 && isHexDigitChar h2 && isHexDigitChar h3 && isHexDigitChar h4 then
              cont [Char.ofNat
                (((hexDigitVal h1 * 16 + hexDigitVal h2) * 16 + hexDigitVal h3) * 16
                  + hexDigitVal h4)] r3
            else none
          | _ => none
        else cont ['\\', e] r2
    else (parsePyStringBody q fuel rest).map (fun p => (c :: p.1, p.2))

/-- Python number after an optional sign: `digits [. digits?] exp?`,
`. digits exp?`; integer literals may not have leading zeros. -/
def parsePyNumberBody (s : List Char) : Option (List Char × List Char) := do
  let intds := s.takeWhile Char.isDigit
  let s1 := s.dropWhile Char.isDigit
  if intds.isEmpty then
    match s1 with
    | '.' :: r =>
      let fr := r.takeWhile Char.isDigit
      if fr.isEmpty then none
      else do
        let (ex, s2) ← parseJsonExp (r.dropWhile Char.isDigit)
        pure ('.' :: fr ++ ex, s2)
    | _ => none
  else
    match s1 with
    | '.' :: r => do
      let fr := r.takeWhile Char.isDigit
      let (ex, s2) ← parseJsonExp (r.dropWhile Char.isDigit)
      pure (intds ++ '.' :: fr ++ ex, s2)
    | _ => do
      let (ex, s2) ← parseJsonExp s1
      if ex.isEmpty && intds.head? = some '0' && intds.length > 1 then none
      else pure (intds ++ ex, s2)

def pyLitWsChar (c : Char) : Bool := c = ' ' || c = '\t' || c = '\x0c'

def skipPyLitWs (s : List Char) : List Char := s.dropWhile pyLitWsChar

mutual

def parsePyValue : Nat → List Char → Option (PyVal × List Char)
  | 0, _ => none
  | fuel + 1, s0 =>
    let s := skipPyLitWs s0
    if ['T', 'r', 'u', 'e'].isPrefixOf s then some (.pbool true, s.drop 4)
    else if ['F', 'a', 'l', 's', 'e'].isPrefixOf s then some (.pbool false, s.drop 5)
    else if ['N', 'o', 'n', 'e'].isPrefixOf s then some (.pnone, s.drop 4)
    else
      match s with
      | [] => none
      | c :: rest =>
        if c = '\'' || c = '"' then
          match parsePyStringBody c (rest.length + 1) rest with
          | some (str, r) => some (.pstr str, r)
          | none => none
        else if c = '[' then parsePyListBody fuel rest []
        else if c = '(' then parsePyTupleStart fuel rest
        else if c = '\x7b' then parsePyBraceStart fuel rest
        else if c = '+' || c = '-' then
          -- a single unary sign, possibly followed by spaces (ast UnaryOp)
          match parsePyNumberBody (skipPyLitWs rest) with
          | some (lex, r) => some (.pnum (c :: lex), r)
          | none => none
        else
          match parsePyNumberBody s with
          | some (lex, r) => some (.pnum lex, r)
          | none => none

/-- List items; a `]` directly after `[` or after a comma closes the list
(trailing commas are legal Python). -/
def parsePyListBody : Nat → List Char → List PyVal → Option (PyVal × List Char)
  | 0, _, _ => none
  | fuel + 1, s0, acc =>
    let s := skipPyLitWs s0
    match s with
    | ']' :: rest => some (.plist acc.reverse, rest)
    | _ =>
      match parsePyValue fuel s with
      | some (v, r1) =>
        match skipPyLitWs r1 with
        | ',' :: r3 => parsePyListBody fuel r3 (v :: acc)
        | ']' :: r3 => some (.plist (v :: acc).reverse, r3)
        | _ => none
      | none => none

/-- After `(`: `()` is the empty tuple, `(v)` a parenthesized literal,
`(v, ...)` a tuple. -/
def parsePyTupleStart : Nat → List Char → Option (PyVal × List Char)
  | 0, _ => none
  | fuel + 1, s0 =>
    let s := skipPyLitWs s0
    match s with
    | ')' :: rest => some (.ptuple [], rest)
    | _ =>
      match parsePyValue fuel s with
      | some (v, r1) =>
        match skipPyLitWs r1 with
        | ')' :: r3 => some (v, r3)
        | ',' :: r3 => parsePyTupleBody fuel r3 [v]
        | _ => none
      | none => none

def parsePyTupleBody : Nat → List Char → List PyVal → Option (PyVal × List Char)
  | 0, _, _ => none
  | fuel + 1, s0, acc =>
    let s := skipPyLitWs s0
    match s with
    | ')' :: rest => some (.ptuple acc.reverse, rest)
    | _ =>
      match parsePyValue fuel s with
      | some (v, r1) =>
        match skipPyLitWs r1 with
        | ',' :: r3 => parsePyTupleBody fuel r3 (v :: acc)
        | ')' :: r3 => some (.ptuple (v :: acc).reverse, r3)
        | _ => none
      | none => none

/-- After an opening brace: empty dict, or the first element decides between
dict (`:`) and set (`,` or close). -/
def parsePyBraceStart : Nat → List Char → Option (PyVal × List Char)
  | 0, _ => none
  | fuel + 1, s0 =>
    let s := skipPyLitWs s0
    match s with
    | '\x7d' :: rest => some (.pdict [], rest)
    | _ =>
      match parsePyValue fuel s with
      | some (k, r1) =>
        match skipPyLitWs r1 with
        | ':' :: r2 =>
          match parsePyValue fuel r2 with
          | some (v, r3) =>
            match skipPyLitWs r3 with
            | ',' :: r4 => parsePyDictBody fuel r4 [(k, v)]
            | '\x7d' :: r4 => some (.pdict [(k, v)], r4)
            | _ => none
          | none => none
        | ',' :: r2 => parsePySetBody fuel r2 [k]
        | '\x7d' :: r2 => some (.pset [k], r2)
        | _ => none
      | none => none

def parsePyDictBody : Nat → List Char → List (PyVal × PyVal) → Option (PyVal × List Char)
  | 0, _, _ => none
  | fuel + 1, s0, acc =>
    let s := skipPyLitWs s0
    match s with
    | '\x7d' :: rest => some (.pdict acc.reverse, rest)
    | _ =>
      match parsePyValue fuel s with
      | some (k, r1) =>
        match skipPyLitWs r1 with
        | ':' :: r2 =>
          match parsePyValue fuel r2 with
          | some (v, r3) =>
            match skipPyLitWs r3 with
            | ',' :: r4 => parsePyDictBody fuel r4 ((k, v) :: acc)
            | '\x7d' :: r4 => some (.pdict ((k, v) :: acc).reverse, r4)
            | _ => none
          | none => none
        | _ => none
      | none => none

def parsePySetBody : Nat → List Char → List PyVal → Option (PyVal × List Char)
  | 0, _, _ => none
  | fuel + 1, s0, acc =>
    let s := skipPyLitWs s0
    match s with
    | '\x7d' :: rest => some (.pset acc.reverse, rest)
    | _ =>
      match parsePyValue fuel s with
      | some (v, r1) =>
        match skipPyLitWs r1 with
        | ',' :: r3 => parsePySetBody fuel r3 (v :: acc)
        | '\x7d' :: r3 => some (.pset (v :: acc).reverse, r3)
        | _ => none
      | none => none

end

/-- `ast.literal_eval(line)` (with any exception mapped to `none`, as in the
code's `except Exception: parsed = None`). -/
def pyLiteralEval (s : List Char) : Option PyVal :=
  match parsePyValue (2 * s.length + 8) s with
  | some (v, rest) => if (skipPyLitWs rest).isEmpty then some v else none
  | none => none

/-- src/backend/main.py:414-422: try `json.loads`; on failure try
`ast.literal_eval`; on failure the line carries no event. -/
def parseLine (ln : List Char) : Option PyVal :=
  match jsonLoads ln with
  | some v => some v
  | none => pyLiteralEval ln

/-! ### The `event_stream` dispatcher (src/backend/main.py:366-615)

The external world is an oracle: each field says how one external call would
respond (`Except` failure = the underlying SDK call raising). -/

/-- Observable effects of `event_stream`, in order of occurrence. -/
inductive Output where
  | sseDelta (text : List Char)
  | insertAttempt (table : List Char) (rows : List (List (List Char × PyVal)))
  | diskAttempt (uuid user project : List Char) (files : List (PyVal × PyVal))
  | githubAttempt (repoName : List Char) (files : List (PyVal × PyVal))
  | vercelAttempt (projName : List Char)
  | commitOk (uuid : List Char) (github vercel : Option (List Char))
  | commitError (msg : List Char)
  | sseDone

/-- Responses of the external collaborators.  A fixed oracle answers
repeated calls identically, which is enough for every claim quantified over
oracles. -/
structure Oracle where
  /-- `str(uuid.uuid4())` (src/backend/main.py:483). -/
  uuid : List Char
  /-- `datetime.utcnow().isoformat()`. -/
  now : List Char
  /-- `supabase_select("project_files", ...)` inside the commit fallback
  (src/backend/main.py:489); `error` = the call raising. -/
  selectProjectFiles : Except (List Char) (List (List (List Char × PyVal)))
  /-- `save_files_to_disk` (src/backend/main.py:509); `error` = raising. -/
  disk : Except (List Char) Unit
  /-- whether `gh` is configured (`GITHUB_TOKEN` set, src/backend/main.py:96). -/
  hasGithub : Bool
  /-- `gh.get_user()` + `user.create_repo(...)` (src/backend/main.py:516-517)
  returning the login, or raising. -/
  githubCreate : Except (List Char) (List Char)
  /-- whether `VERCEL_TOKEN` is set (src/backend/main.py:544). -/
  hasVercel : Bool
  /-- the `requests.post` to Vercel plus `raise_for_status`
  (src/backend/main.py:563-569). -/
  vercelPost : Except (List Char) Unit

/-- `latest_file_contents[file_path]` lookup (Python dict, keys compared
with `==`). -/
def lookupPy (m : List (PyVal × PyVal)) (k : PyVal) : Option PyVal :=
  (m.find? (fun kv => pyEq kv.1 k)).map (fun kv => kv.2)

/-- `latest_file_contents[file_path] = v`: updating an existing key keeps
its position, a new key is appended (Python dict insertion order). -/
def updatePy (m : List (PyVal × PyVal)) (k v : PyVal) : List (PyVal × PyVal) :=
  if m.any (fun kv => pyEq kv.1 k) then
    m.map (fun kv => if pyEq kv.1 k then (kv.1, v) else kv)
  else m ++ [(k, v)]

/-- Field of a Supabase row (`r.get(key)`, rows keyed by column name). -/
def rowGet (r : List (List Char × PyVal)) (k : List Char) : PyVal :=
  match (r.filter (fun kv => kv.1 == k)).getLast? with
  | some kv => kv.2
  | none => .pnone

/-- The `saved_content` computation of the patch branch
(src/backend/main.py:449-460): a truthy `content` wins; else a truthy
string `diff` goes through `try_extract_content_from_diff` (a non-`str`
`diff` raises `AttributeError` inside that function's `try`, which returns
`None`), and a falsy extraction result (`None` or `""`) leaves
`saved_content = None`. -/
def patchSavedContent (content diff : PyVal) : Option PyVal :=
  if pyTruthy content then some content
  else if pyTruthy diff then
    match diff with
    | .pstr d =>
      match try_extract_content_from_diff d with
      | some e => if e.isEmpty then none else some (.pstr e)
      | none => none
    | _ => none
  else none

/-- `latest_file_contents` update (src/backend/main.py:477-478):
`if saved_content is not None and file_path:`. -/
def patchUpdate (latest : List (PyVal × PyVal)) (file content diff : PyVal) :
    List (PyVal × PyVal) :=
  match patchSavedContent content diff with
  | some sc => if pyTruthy file then updatePy latest file sc else latest
  | none => latest

/-- The `project_files` row of a patch event (src/backend/main.py:464-471). -/
def patchRow (o : Oracle) (sess user : List Char) (file content diff : PyVal) :
    List (List Char × PyVal) :=
  [("session_id".data, .pstr sess), ("user_id".data, .pstr user),
   ("file_path".data, file),
   ("content".data, (patchSavedContent content diff).getD (.pstr [])),
   ("diff".data, if pyTruthy diff then diff else .pstr []),
   ("created_at".data, .pstr o.now)]

/-- The `chat_history` row of a thought event (src/backend/main.py:434-440). -/
def thoughtRow (o : Oracle) (sess user : List Char) (content : PyVal) :
    List (List Char × PyVal) :=
  [("session_id".data, .pstr sess), ("user_id".data, .pstr user),
   ("role".data, .pstr "assistant".data), ("content".data, content),
   ("created_at".data, .pstr o.now)]

/-- The `project_events` row of an unknown event (src/backend/main.py:599-604);
the `json.dumps(parsed)` serialization is kept as the value itself. -/
def unknownEventRow (o : Oracle) (sess user : List Char) (parsed : PyVal) :
    List (List Char × PyVal) :=
  [("session_id".data, .pstr sess), ("user_id".data, .pstr user),
   ("event".data, parsed), ("created_at".data, .pstr o.now)]

/-- `by_file` of the commit fallback (src/backend/main.py:491-500): walk the
session's `project_files` rows, keeping per truthy `file_path` the last row
with truthy `content`, then take those rows' `content`. -/
def rowsByFile (rows : List (List (List Char × PyVal))) : List (PyVal × PyVal) :=
  rows.foldl (fun acc r =>
    let fp := rowGet r "file_path".data
    if pyTruthy fp then
      let c := rowGet r "content".data
      if pyTruthy c then updatePy acc fp c else acc
    else acc) []

/-- The README fallback content (src/backend/main.py:506). -/
def commitReadme (sess : List Char) : PyVal :=
  .pstr ("# Projeto gerado - session ".data ++ sess)

/-- `files_to_commit` (src/backend/main.py:485-506): a copy of
`latest_file_contents`; if empty, the Supabase fallback (a raising select is
swallowed by `except: pass`); if still empty, a single `README.md`. -/
def buildFilesToCommit (o : Oracle) (latest : List (PyVal × PyVal)) (sess : List Char) :
    List (PyVal × PyVal) :=
  let files := latest
  let files :=
    if files.isEmpty then
      match o.selectProjectFiles with
      | .error _ => files
      | .ok rows => rowsByFile rows
    else files
  if files.isEmpty then [(.pstr "README.md".data, commitReadme sess)] else files

/-- The `projects` registration row (src/backend/main.py:576-587);
`json.dumps(list(files_to_commit.keys()))` is kept as the key list. -/
def projectsRow (o : Oracle) (sess user prompt : List Char)
    (files : List (PyVal × PyVal)) (gh v : Option (List Char)) :
    List (List Char × PyVal) :=
  [("id".data, .pstr o.uuid), ("user_id".data, .pstr user),
   ("project_id".data, .pstr sess), ("uuid".data, .pstr o.uuid),
   ("prompt".data, .pstr prompt),
   ("llm_output".data, .plist (files.map (fun kv => kv.1))),
   ("github_commit_url".data, .pstr (gh.getD [])),
   ("vercel_url".data, .pstr (v.getD [])),
   ("status".data, .pstr (if v.isSome then "deployed".data else "created".data)),
   ("created_at".data, .pstr o.now)]

/-- Steps 3-4 of the commit branch and the success event
(src/backend/main.py:542-592): the Vercel attempt (its failure is swallowed,
leaving `vercel_url = None`), the `projects` insert attempt (failure
swallowed) and the `commit` SSE event. -/
def commitTail (o : Oracle) (sess user prompt : List Char)
    (files : List (PyVal × PyVal)) (gh : Option (List Char)) : List Output :=
  let vr : List Output × Option (List Char) :=
    if o.hasVercel then
      ([Output.vercelAttempt o.uuid],
       match o.vercelPost with
       | .ok _ => some ("https://".data ++ o.uuid ++ ".vercel.app".data)
       | .error _ => none)
    else ([], none)
  vr.1 ++ [Output.insertAttempt "projects".data [projectsRow o sess user prompt files gh vr.2],
           Output.commitOk o.uuid gh vr.2]

/-- The commit branch (src/backend/main.py:480-595).  The whole branch sits
in one `try/except`: `save_files_to_disk` or `gh.get_user()`/`create_repo`
raising ends it with a `commit_error` SSE event; the Vercel call and the
Supabase insert have inner `try/except`s and cannot abort it.  The GitHub
tree/commit plumbing after `create_repo` is wrapped in nested swallowing
`try/except`s and produces no observable output, so it is not modelled
beyond the repo-creation attempt.  The project name passed to
`save_files_to_disk` is `req.session_id`. -/
def handleCommit (o : Oracle) (sess user prompt : List Char)
    (latest : List (PyVal × PyVal)) : List Output :=
  let files := buildFilesToCommit o latest sess
  Output.diskAttempt o.uuid user sess files ::
  (match o.disk with
   | .error e => [Output.commitError e]
   | .ok _ =>
     if o.hasGithub then
       Output.githubAttempt o.uuid files ::
       (match o.githubCreate with
        | .error e => [Output.commitError e]
        | .ok login =>
          commitTail o sess user prompt files
            (some ("https://github.com/".data ++ login ++ '/' :: o.uuid ++ ".git".data)))
     else commitTail o sess user prompt files none)

/-- Dispatch of one parsed (truthy dict) event (src/backend/main.py:429-606). -/
def dispatchEvent (o : Oracle) (sess user prompt : List Char)
    (st : List (PyVal × PyVal)) (parsed : List (PyVal × PyVal)) :
    List Output × List (PyVal × PyVal) :=
  let etype := dictGet parsed "type".data
  if pyValIsStr etype "thought".data then
    ([Output.insertAttempt "chat_history".data
        [thoughtRow o sess user (dictGetD parsed "content".data (.pstr []))]], st)
  else if pyValIsStr etype "patch".data then
    let file := dictGet parsed "file".data
    let content := dictGet parsed "content".data
    let diff := dictGet parsed "diff".data
    ([Output.insertAttempt "project_files".data [patchRow o sess user file content diff]],
     patchUpdate st file content diff)
  else if pyValIsStr etype "commit".data then
    (handleCommit o sess user prompt st, st)
  else
    ([Output.insertAttempt "project_events".data
        [unknownEventRow o sess user (.pdict parsed)]], st)

/-- One iteration of the `for ln in complete_lines` loop
(src/backend/main.py:409-606): strip, skip empty lines, parse (JSON, then
the literal fallback), skip falsy or non-dict results, dispatch. -/
def processLine (o : Oracle) (sess user prompt : List Char)
    (st : List (PyVal × PyVal)) (ln0 : List Char) :
    List Output × List (PyVal × PyVal) :=
  let ln := pyStrip ln0
  if ln.isEmpty then ([], st)
  else
    match parseLine ln with
    | none => ([], st)
    | some (.pdict kvs) =>
      if pyTruthy (.pdict kvs) then dispatchEvent o sess user prompt st kvs
      else ([], st)
    | some _ => ([], st)

/-- Processing a list of complete lines in order, threading
`latest_file_contents`. -/
def processLines (o : Oracle) (sess user prompt : List Char)
    (st : List (PyVal × PyVal)) : List (List Char) → List Output × List (PyVal × PyVal)
  | [] => ([], st)
  | ln :: rest =>
    let r := processLine o sess user prompt st ln
    let r2 := processLines o sess user prompt r.2 rest
    (r.1 ++ r2.1, r2.2)

/-- The whole generator body after the model stream opens
(src/backend/main.py:366-609): empty fragments are skipped; otherwise an SSE
`delta` is yielded, the fragment joins the buffer, each newly completed line
is processed, and after the last fragment a final `done` event is yielded.
(The trailing buffer content — text after the last newline — is never
processed, exactly as in the code.) -/
def eventStream (o : Oracle) (sess user prompt : List Char) :
    List (List Char) → List Char → List (PyVal × PyVal) → List Output
  | [], _, _ => [Output.sseDone]
  | f :: fs, buf, st =>
    if f.isEmpty then eventStream o sess user prompt fs buf st
    else
      let r := splitComplete (buf ++ f)
      let pl := processLines o sess user prompt st r.1
      Output.sseDelta f :: (pl.1 ++ eventStream o sess user prompt fs r.2 pl.2)

/-- Claim-side (C3's wording) update of the latest-content table by one
patch event: a patch that has a `content` field sets the entry to that
content; otherwise a diff from which content can be extracted sets it to
the extraction; otherwise the entry is unchanged. -/
def specC3Update (latest : List (PyVal × PyVal)) (file content diff : PyVal) :
    List (PyVal × PyVal) :=
  match content with
  | .pnone =>
    match diff with
    | .pstr d =>
      match try_extract_content_from_diff d with
      | some e => updatePy latest file (.pstr e)
      | none => latest
    | _ => latest
  | c => updatePy latest file c

/-- A concrete oracle where every external call succeeds trivially. -/
def testOracle : Oracle :=
  { uuid := "u1".data, now := "t0".data,
    selectProjectFiles := .ok [],
    disk := .ok (),
    hasGithub := false,
    githubCreate := .ok "login".data,
    hasVercel := false,
    vercelPost := .ok () }

/-- A concrete oracle where GitHub and Vercel are configured but the disk
write raises. -/
def failDiskOracle : Oracle :=
  { testOracle with disk := .error "boom".data, hasGithub := true, hasVercel := true }

/-- A concrete oracle where the commit-fallback Supabase select raises. -/
def failSelectOracle : Oracle :=
  { testOracle with selectProjectFiles := .error "down".data }

/-- A line that is not valid JSON (trailing comma in the object) but is a
valid Python literal, so the `ast.literal_eval` fallback accepts it. -/
def c2Line : List Char := "\x7b\"type\":\"thought\",\"content\":\"oi\",\x7d".data

def c3PatchLine1 : List Char :=
  "\x7b\"type\":\"patch\",\"file\":\"a.tsx\",\"content\":\"x\"\x7d".data

def c3PatchLine2 : List Char :=
  "\x7b\"type\":\"patch\",\"file\":\"a.tsx\",\"content\":\"\"\x7d".data

def c4CommitLine : List Char := "\x7b\"type\":\"commit\"\x7d".data

/-- Tests whether an output is the `commit_error` SSE event. -/
def isCommitError : Output → Bool
  | .commitError _ => true
  | _ => false

/-- Tests whether an output is a terminal SSE event of the commit branch
(`commit` success or `commit_error`). -/
def isCommitTerminal : Output → Bool
  | .commitError _ => true
  | .commitOk _ _ _ => true
  | _ => false

/-! ### `save_files_to_disk` (src/backend/main.py:165-173) and path joins

```
base_path = Path("containers") / project_uuid / user_id / normalize_project_name(project_name)
for fname, fcontent in files.items():
    fpath = base_path / fname
    ...open(fpath, "w")...
```
`pathlib.PurePosixPath` semantics: duplicate slashes and `.` segments are
collapsed, `..` is kept, and joining an ABSOLUTE right operand replaces the
left operand entirely. -/

/-- Python `"/".join`-style join with an arbitrary separator. -/
def joinSep (sep : Char) : List (List Char) → List Char
  | [] => []
  | [l] => l
  | l :: ls => l ++ sep :: joinSep sep ls

/-- Non-empty, non-`.` components of a POSIX path string. -/
def pathParts (s : List Char) : List (List Char) :=
  (splitOnChar '/' s).filter (fun p => !p.isEmpty && p ≠ ['.'])

/-- `PurePosixPath` join `base / child`. -/
def posixJoin (base child : List Char) : List Char :=
  if child.head? = some '/' then '/' :: joinSep '/' (pathParts child)
  else joinSep '/' (pathParts (base ++ '/' :: child))

/-- The base directory built by `save_files_to_disk` (src/backend/main.py:166). -/
def basePath (project_uuid user_id project_name : List Char) : List Char :=
  posixJoin (posixJoin (posixJoin "containers".data project_uuid) user_id)
    (normalize_project_name project_name)

/-- `save_files_to_disk` as the disk writes it performs: each entry of
`files` is written at `base / fname` (after `mkdir -p` of its parent
directory, not further modelled); the base path is returned. -/
def save_files_to_disk (project_uuid user_id project_name : List Char)
    (files : List (List Char × List Char)) : List Char × List (List Char × List Char) :=
  let base := basePath project_uuid user_id project_name
  (base, files.map (fun fc => (posixJoin base fc.1, fc.2)))

/-- Resolution of `..` segments against a directory stack. -/
def resolveDots (parts : List (List Char)) : List (List Char) :=
  parts.foldl (fun acc p => if p = ['.', '.'] then acc.dropLast else acc ++ [p]) []

def isAbsPath (s : List Char) : Bool := s.head? == some '/'

/-- `path` lies under directory `base`: same absoluteness and, after
resolving `..` segments, the components of `base` are a prefix of those of
`path`. -/
def underDir (base path : List Char) : Bool :=
  (isAbsPath base == isAbsPath path)
    && (resolveDots (pathParts base)).isPrefixOf (resolveDots (pathParts path))

end Backend

namespace SrcMain

/-! ### The `/generate` endpoint of src/main.py -/

/-- src/main.py:16-18. -/
structure GenRequest where
  user_id : List Char
  prompt : List Char

structure ChatMessage where
  role : List Char
  content : List Char

/-- The message list sent to the completion API (src/main.py:23-31). -/
def generateMessages (req : GenRequest) : List ChatMessage :=
  [⟨"system".data, "Você é um gerador de código confiável.".data⟩,
   ⟨"user".data, req.prompt⟩]

/-- One Supabase insert call: target table and row. -/
structure InsertCall where
  table : List Char
  row : List (List Char × List Char)

/-- The `/generate` handler (src/main.py:20-41), the hosted completion API
abstracted as a function from the message list to the model output: call
the model, insert `{user_id, prompt, llm_output}` into the `projects`
table, return the model output. -/
def generate (llm : List ChatMessage → List Char) (req : GenRequest) :
    InsertCall × List Char :=
  let llm_output := llm (generateMessages req)
  (⟨"projects".data,
    [("user_id".data, req.user_id), ("prompt".data, req.prompt),
     ("llm_output".data, llm_output)]⟩,
   llm_output)

end SrcMain

namespace Routes

/-! ### HTTP routes registered across the three source files -/

/-- src/main.py:20 (`@app.post("/generate")`). -/
def srcMainRoutes : List (List Char) := ["/generate".data]

/-- src/backend/main.py, decorators at lines 233, 243, 257, 263, 268, 326
and 621. -/
def backendRoutes : List (List Char) :=
  ["/auth/login".data, "/auth/signup".data, "/chat/start_session".data,
   "/chat/sessions/\x7buser_id\x7d".data, "/chat/send".data, "/generate_project".data,
   "/projects/reconstruct/\x7bsession_id\x7d".data]

/-- src/backend/my-api/app.py:35 (`@app.post("/create_project")`). -/
def myApiRoutes : List (List Char) := ["/create_project".data]

/-- All HTTP routes across the repository's source files. -/
def allRoutes : List (List Char) := srcMainRoutes ++ backendRoutes ++ myApiRoutes

/-- The fixed routes named by the claim (C6's wording). -/
def claimFixedRoutes : List (List Char) :=
  ["/generate".data, "/generate_project".data, "/auth/login".data, "/auth/signup".data,
   "/create_project_files".data, "/deploy_project".data]

/-- Membership in the claim's route set (`/chat/*` as a prefix pattern). -/
def matchesClaimC6 (r : List Char) : Bool :=
  claimFixedRoutes.any (fun c => c == r) || "/chat/".data.isPrefixOf r

/-- Membership in the amended route set: `/create_project` instead of
`/create_project_files`, no `/deploy_project`, and additionally
`/projects/reconstruct/{session_id}`. -/
def matchesAmendedC6 (r : List Char) : Bool :=
  (["/generate".data, "/generate_project".data, "/auth/login".data, "/auth/signup".data,
    "/create_project".data,
    "/projects/reconstruct/\x7bsession_id\x7d".data].any (fun c => c == r))
  || "/chat/".data.isPrefixOf r

end Routes

open Backend

theorem splitOnChar_eq_splitComplete (s : List Char) :
    splitOnChar '\n' s = (splitComplete s).1 ++ [(splitComplete s).2] := by
  induction s with
  | nil => simp [splitOnChar, splitComplete]
  | cons c cs ih =>
    by_cases hc : c = '\n'
    · simp [splitOnChar, splitComplete, hc, ih]
    · simp only [splitOnChar, splitComplete, if_neg hc, ih]
      rcases h : (splitComplete cs).1 with _ | ⟨l, ls⟩ <;>
        simp [h, consHead]


/-- The reassembly step is exactly Python's
`lines = s.split("\n"); (lines[:-1], lines[-1])`. -/
theorem splitComplete_eq_split (s : List Char) :
    splitComplete s = ((splitOnChar '\n' s).dropLast, (splitOnChar '\n' s).getLastD []) := by
  rw [splitOnChar_eq_splitComplete]
  rw [List.dropLast_concat, List.getLastD_concat]


theorem splitComplete_nil_right (s : List Char)
    (h : (splitComplete s).1 = []) : (splitComplete s).2 = s := by
  induction s with
  | nil => simp [splitComplete]
  | cons c cs ih =>
    by_cases hc : c = '\n'
    · simp [splitComplete, hc] at h
    · simp only [splitComplete, if_neg hc] at h ⊢
      rcases hcs : (splitComplete cs).1 with _ | ⟨l, ls⟩
      · simp only [consHead, hcs]
        rw [ih hcs]
      · simp [consHead, hcs] at h


/-- A chunk with no newline only grows the buffer; no line is complete. -/
theorem splitComplete_no_newline (s : List Char) (h : '\n' ∉ s) :
    splitComplete s = ([], s) := by
  induction s with
  | nil => simp [splitComplete]
  | cons c cs ih =>
    have hc : c ≠ '\n' := fun hc => h (hc ▸ List.mem_cons_self c cs)
    have hcs : '\n' ∉ cs := fun hm => h (List.mem_cons_of_mem c hm)
    simp only [splitComplete, if_neg hc, ih hcs, consHead]


/-- The buffer kept after a reassembly step never contains a newline
(it is the text after the last newline). -/
theorem splitComplete_buffer_no_newline (s : List Char) :
    '\n' ∉ (splitComplete s).2 := by
  induction s with
  | nil => simp [splitComplete]
  | cons c cs ih =>
    by_cases hc : c = '\n'
    · simpa [splitComplete, hc] using ih
    · simp only [splitComplete, if_neg hc]
      rcases hcs : (splitComplete cs).1 with _ | ⟨l, ls⟩
      · simp only [consHead, hcs, List.mem_cons]
        rintro (h | h)
        · exact hc h.symm
        · exact ih h
      · simpa [consHead, hcs] using ih


/-- The number of complete lines produced by one step equals the number of
newlines fed in. -/
theorem splitComplete_length (s : List Char) :
    (splitComplete s).1.length = s.count '\n' := by
  induction s with
  | nil => simp [splitComplete]
  | cons c cs ih =>
    by_cases hc : c = '\n'
    · simp [splitComplete, hc, ih, List.count_cons]
    · simp only [splitComplete, if_neg hc]
      rcases hcs : (splitComplete cs).1 with _ | ⟨l, ls⟩ <;>
        rw [hcs] at ih <;>
        simp [consHead, hcs, List.count_cons, hc, ← ih]


/-- Feeding `a ++ b` at once is the same as feeding `a`, keeping the buffered
tail, then feeding `b`. -/
theorem splitComplete_append (a b : List Char) :
    splitComplete (a ++ b) =
      ((splitComplete a).1 ++ (splitComplete ((splitComplete a).2 ++ b)).1,
       (splitComplete ((splitComplete a).2 ++ b)).2) := by
  induction a with
  | nil => simp [splitComplete]
  | cons c a' ih =>
    by_cases hc : c = '\n'
    · simp only [List.cons_append, splitComplete, if_pos hc, List.append_eq]
      rw [ih]
    · simp only [List.cons_append, splitComplete, if_neg hc, List.append_eq]
      rcases h1 : (splitComplete a').1 with _ | ⟨l, ls⟩
      · have h2 : (splitComplete a').2 = a' := splitComplete_nil_right a' h1
        have hr : consHead c (splitComplete a') = ([], c :: a') := by
          simp [consHead, h1, h2]
        rw [hr]
        simp only [List.nil_append, List.cons_append, splitComplete, if_neg hc, List.append_eq]
      · rw [ih]
        simp [consHead, h1]


theorem processFragments_eq (buf : List Char) (frags : List (List Char))
    (hbuf : '\n' ∉ buf) :
    processFragments buf frags = splitComplete (buf ++ frags.flatten) := by
  induction frags generalizing buf with
  | nil =>
    simp only [processFragments, List.flatten_nil, List.append_nil]
    rw [splitComplete_no_newline buf hbuf]
  | cons f fs ih =>
    simp only [processFragments, List.flatten_cons]
    rw [ih (splitComplete (buf ++ f)).2 (splitComplete_buffer_no_newline (buf ++ f))]
    rw [← List.append_assoc]
    rw [splitComplete_append (buf ++ f) fs.flatten]


theorem collapseUnderscoreRuns_cons (a : Char) (rest : List Char) :
    collapseUnderscoreRuns (a :: rest) =
      if a = '_' ∧ (collapseUnderscoreRuns rest).head? = some '_'
      then collapseUnderscoreRuns rest
      else a :: collapseUnderscoreRuns rest := rfl


theorem mem_collapseUnderscoreRuns {c : Char} {l : List Char}
    (h : c ∈ collapseUnderscoreRuns l) : c ∈ l := by
  induction l with
  | nil => exact absurd h (by simp [collapseUnderscoreRuns])
  | cons a rest ih =>
    rw [collapseUnderscoreRuns_cons] at h
    by_cases hcond : a = '_' ∧ (collapseUnderscoreRuns rest).head? = some '_'
    · rw [if_pos hcond] at h
      exact List.mem_cons_of_mem a (ih h)
    · rw [if_neg hcond] at h
      rcases List.mem_cons.mp h with h | h
      · exact h ▸ List.mem_cons_self a rest
      · exact List.mem_cons_of_mem a (ih h)


theorem chain'_collapseUnderscoreRuns (l : List Char) :
    List.Chain' (fun a b => ¬(a = '_' ∧ b = '_')) (collapseUnderscoreRuns l) := by
  induction l with
  | nil => simp [collapseUnderscoreRuns]
  | cons a rest ih =>
    rw [collapseUnderscoreRuns_cons]
    by_cases hcond : a = '_' ∧ (collapseUnderscoreRuns rest).head? = some '_'
    · rw [if_pos hcond]
      exact ih
    · rw [if_neg hcond]
      rw [List.chain'_cons']
      refine ⟨?_, ih⟩
      intro b hb
      intro ⟨ha, hb'⟩
      exact hcond ⟨ha, by rw [hb'] at hb; exact hb⟩


theorem marker_isPrefixOf_plus3 {ln : List Char}
    (h : ['+', '+', '+', ' '].isPrefixOf ln = true) :
    ['+', '+', '+'].isPrefixOf ln = true := by
  rcases ln with _ | ⟨a, _ | ⟨b, _ | ⟨c, _ | ⟨e, r⟩⟩⟩⟩ <;>
    simp_all [List.isPrefixOf]
  exact ⟨h.1, h.2.1, h.2.2.1⟩


theorem space_not_plus {ln : List Char}
    (h : [' '].isPrefixOf ln = true) :
    ['+'].isPrefixOf ln = false ∧ ['+', '+', '+'].isPrefixOf ln = false := by
  rcases ln with _ | ⟨a, r⟩
  · simp [List.isPrefixOf] at h
  · have ha' : ' ' = a := by
      simp only [List.isPrefixOf, List.isPrefixOf_nil_left, Bool.and_true] at h
      simpa using h
    have ha : a = ' ' := ha'.symm
    subst ha
    constructor <;> simp [List.isPrefixOf]


theorem collectDiffLines_true_eq (l : List (List Char)) :
    collectDiffLines true l = l.filterMap diffLineSelect := by
  induction l with
  | nil => rfl
  | cons ln rest ih =>
    by_cases h4 : ['+', '+', '+', ' '].isPrefixOf ln
    · have h3 := marker_isPrefixOf_plus3 h4
      simp [collectDiffLines, diffLineSelect, h4, h3, ih]
    · by_cases h3 : ['+', '+', '+'].isPrefixOf ln
      · by_cases hs : [' '].isPrefixOf ln
        · rw [(space_not_plus hs).2] at h3
          exact absurd h3 Bool.false_ne_true
        · simp [collectDiffLines, diffLineSelect, h4, h3, hs, ih]
      · by_cases h1 : ['+'].isPrefixOf ln
        · simp [collectDiffLines, diffLineSelect, h4, h3, h1, ih]
        · by_cases hs : [' '].isPrefixOf ln
          · simp [collectDiffLines, diffLineSelect, h4, h3, h1, hs, ih]
          · simp [collectDiffLines, diffLineSelect, h4, h3, h1, hs, ih]


theorem collectDiffLines_false_eq (l : List (List Char)) :
    collectDiffLines false l =
      match linesAfterFirstMarker l with
      | none => []
      | some post => post.filterMap diffLineSelect := by
  induction l with
  | nil => rfl
  | cons ln rest ih =>
    by_cases h4 : ['+', '+', '+', ' '].isPrefixOf ln
    · simp [collectDiffLines, linesAfterFirstMarker, h4, collectDiffLines_true_eq]
    · simp [collectDiffLines, linesAfterFirstMarker, h4, ih]


theorem pyEq_pstr_right {v : PyVal} {s : List Char} (h : pyEq v (.pstr s) = true) :
    v = .pstr s := by
  cases v <;> simp_all [pyEq]


theorem pyEq_pstr_pstr (a b : List Char) : pyEq (.pstr a) (.pstr b) = (a == b) := by
  simp [pyEq]


theorem lookupPy_map_ne (f q : List Char) (v : PyVal) (hqf : q ≠ f) :
    ∀ m : List (PyVal × PyVal),
      lookupPy (m.map (fun kv => if pyEq kv.1 (.pstr f) then (kv.1, v) else kv)) (.pstr q)
        = lookupPy m (.pstr q) := by
  intro m
  induction m with
  | nil => rfl
  | cons kv m' ih =>
    by_cases hq : pyEq kv.1 (.pstr q)
    · have hk1 : kv.1 = .pstr q := pyEq_pstr_right hq
      have hkf : pyEq kv.1 (.pstr f) = false := by
        rw [hk1, pyEq_pstr_pstr]
        simp [hqf]
      simp [lookupPy, List.find?_cons, hq, hkf]
    · by_cases hkf : pyEq kv.1 (.pstr f) <;>
        simp_all [lookupPy, List.find?_cons, hq, hkf]


theorem lookupPy_map_self (f : List Char) (v : PyVal) :
    ∀ m : List (PyVal × PyVal),
      m.any (fun kv => pyEq kv.1 (.pstr f)) = true →
      lookupPy (m.map (fun kv => if pyEq kv.1 (.pstr f) then (kv.1, v) else kv)) (.pstr f)
        = some v := by
  intro m
  induction m with
  | nil => intro h; simp at h
  | cons kv m' ih =>
    intro hany
    by_cases hk : pyEq kv.1 (.pstr f)
    · simp [lookupPy, List.find?_cons, hk]
    · have hany' : m'.any (fun kv => pyEq kv.1 (.pstr f)) = true := by
        simpa [List.any_cons, hk] using hany
      simp only [lookupPy] at ih ⊢
      simpa [List.find?_cons, hk] using ih hany'


theorem lookupPy_append_single (f q : List Char) (v : PyVal) :
    ∀ m : List (PyVal × PyVal),
      m.any (fun kv => pyEq kv.1 (.pstr f)) = false →
      lookupPy (m ++ [(.pstr f, v)]) (.pstr q)
        = if q = f then some v else lookupPy m (.pstr q) := by
  intro m
  induction m with
  | nil =>
    intro _
    by_cases hq : q = f
    · subst hq
      simp [lookupPy, List.find?_cons, pyEq_pstr_pstr]
    · have : (f == q) = false := by
        simp
        exact fun he => hq he.symm
      simp [lookupPy, List.find?_cons, pyEq_pstr_pstr, this, hq]
  | cons kv m' ih =>
    intro hany
    rw [List.any_cons] at hany
    have hk : pyEq kv.1 (.pstr f) = false := by
      cases hpk : pyEq kv.1 (.pstr f)
      · rfl
      · rw [hpk] at hany
        simp at hany
    have hany' : m'.any (fun kv => pyEq kv.1 (.pstr f)) = false := by
      cases hpa : m'.any (fun kv => pyEq kv.1 (.pstr f))
      · rfl
      · rw [hpa] at hany
        simp at hany
    by_cases hq : pyEq kv.1 (.pstr q)
    · have hk1 := pyEq_pstr_right hq
      have hqf : q ≠ f := by
        intro he
        subst he
        rw [hk1, pyEq_pstr_pstr] at hk
        simp at hk
      simp [lookupPy, List.cons_append, List.find?_cons, hq, hqf]
    · simp only [List.cons_append]
      simp only [lookupPy] at ih ⊢
      simpa [List.find?_cons, hq] using ih hany'


/-- `latest_file_contents[k] = v` followed by a lookup: the assigned key
reads back the new value, every other key is untouched. -/
theorem lookupPy_updatePy_pstr (m : List (PyVal × PyVal)) (f q : List Char) (v : PyVal) :
    lookupPy (updatePy m (.pstr f) v) (.pstr q)
      = if q = f then some v else lookupPy m (.pstr q) := by
  unfold updatePy
  by_cases hany : m.any (fun kv => pyEq kv.1 (.pstr f))
  · rw [if_pos hany]
    by_cases hq : q = f
    · subst hq
      rw [if_pos rfl]
      exact lookupPy_map_self q v m hany
    · rw [if_neg hq]
      exact lookupPy_map_ne f q v hq m
  · rw [if_neg hany]
    exact lookupPy_append_single f q v m (by simpa using hany)


/-- **C1**: the reassembler appends each fragment to a buffer, treats every
newline-terminated segment as a complete line, keeps only the text after the
last newline in the buffer, and processes each complete line exactly once.
Formally: over any fragment sequence, the lines emitted are exactly
`lines[:-1]` of the concatenated text split at `"\n"` — each complete line
once, in order — and the final buffer is `lines[-1]`, the text after the
last newline; moreover a step emits as many lines as the arriving fragment
has newlines, so a line split across fragments is dispatched exactly once,
when the fragment carrying its terminating newline arrives. -/
theorem c1_reassembler_exactly_once (frags : List (List Char)) :
    (processFragments [] frags).1 = (splitOnChar '\n' frags.flatten).dropLast
    ∧ (processFragments [] frags).2 = (splitOnChar '\n' frags.flatten).getLastD []
    ∧ (∀ buf f, '\n' ∉ buf →
        (splitComplete (buf ++ f)).1.length = f.count '\n'
        ∧ '\n' ∉ (splitComplete (buf ++ f)).2) := by
  have h := processFragments_eq [] frags (by simp)
  rw [List.nil_append] at h
  refine ⟨?_, ?_, ?_⟩
  · rw [h, splitComplete_eq_split]
  · rw [h, splitComplete_eq_split]
  · intro buf f hbuf
    refine ⟨?_, splitComplete_buffer_no_newline _⟩
    rw [splitComplete_length, List.count_append]
    rw [List.count_eq_zero.mpr hbuf]
    simp

theorem c1_reassembler_exactly_once_witness :
    '\n' ∉ ['a', 'b'] ∧
      (splitComplete (['a', 'b'] ++ ['c', '\n', 'd'])).1.length
        = (['c', '\n', 'd']).count '\n' :=
  ⟨by decide,
    (((c1_reassembler_exactly_once []).2.2) ['a', 'b'] ['c', '\n', 'd'] (by decide)).1⟩

/-- **C9**: `try_extract_content_from_diff` is total on strings (modelled as a
function into `Option`, never raising), and returns exactly the addition
lines (leading `+` stripped, excluding `+++` lines) and context lines
(leading space stripped) that appear after the first line starting with
`+++ `, joined by newlines; in particular it returns `none` when the input
has no `+++ ` line and `none` when no addition/context line follows the
marker. -/
theorem c9_try_extract_content_characterization (d : List Char) :
    try_extract_content_from_diff d = specDiffExtract d
    ∧ (linesAfterFirstMarker (pySplitlines d) = none →
        try_extract_content_from_diff d = none)
    ∧ (∀ post, linesAfterFirstMarker (pySplitlines d) = some post →
        post.filterMap diffLineSelect = [] →
        try_extract_content_from_diff d = none) := by
  have key : try_extract_content_from_diff d = specDiffExtract d := by
    unfold try_extract_content_from_diff specDiffExtract
    rw [collectDiffLines_false_eq]
    cases hm : linesAfterFirstMarker (pySplitlines d) with
    | none => simp
    | some post => simp
  refine ⟨key, ?_, ?_⟩
  · intro hnone
    rw [key]
    unfold specDiffExtract
    rw [hnone]
  · intro post hsome hsel
    rw [key]
    unfold specDiffExtract
    rw [hsome]
    simp [hsel]

theorem c9_try_extract_content_characterization_witness :
    linesAfterFirstMarker (pySplitlines ['a', 'b']) = none ∧
      try_extract_content_from_diff ['a', 'b'] = none :=
  ⟨rfl, (c9_try_extract_content_characterization ['a', 'b']).2.1 rfl⟩

/-- **C10**: `normalize_project_name` always returns at most 100 characters,
all drawn from lowercase letters, digits, underscore, dot and hyphen, with
no two consecutive underscores. -/
theorem c10_normalize_project_name_shape (s : List Char) :
    (normalize_project_name s).length ≤ 100
    ∧ (∀ c ∈ normalize_project_name s, isAllowedProjectChar c = true)
    ∧ List.Chain' (fun a b => ¬(a = '_' ∧ b = '_')) (normalize_project_name s) := by
  refine ⟨List.length_take_le _ _, ?_, (chain'_collapseUnderscoreRuns _).take 100⟩
  intro c hc
  have hc1 := List.mem_of_mem_take hc
  have hc2 := mem_collapseUnderscoreRuns hc1
  rcases List.mem_map.mp hc2 with ⟨x, _, hfx⟩
  by_cases hax : isAllowedProjectChar x
  · rw [← hfx, if_pos hax]
    exact hax
  · rw [← hfx, if_neg hax]
    decide

/-- **C2 counterexample**: the claim says a line that is not valid JSON
produces no event dispatch and no persistence call.  But `event_stream`
falls back to `ast.literal_eval` on `JSONDecodeError`, so the non-JSON line
`c2Line` (a JSON object with a trailing comma, which is a legal Python
literal) IS dispatched and produces a `chat_history` insert attempt. -/
theorem c2_counterexample :
    jsonLoads (pyStrip c2Line) = none
    ∧ (processLine testOracle "s".data "u".data "p".data [] c2Line).1
        = [Output.insertAttempt "chat_history".data
            [thoughtRow testOracle "s".data "u".data (.pstr "oi".data)]] :=
  ⟨rfl, rfl⟩

/-- **C2 (amended)**: for every complete line, the code attempts a JSON
parse and, on failure, a Python-literal parse; only a line that both
parsers reject — or whose parse result is falsy or not a dict — is ignored:
it produces no event dispatch and no persistence attempt, leaves the
running state unchanged, and does not abort processing of the remaining
lines. -/
theorem c2_amended_parse_failure_skips (o : Oracle) (sess user prompt : List Char)
    (st : List (PyVal × PyVal)) (ln : List Char) (rest : List (List Char))
    (h : ∀ v, parseLine (pyStrip ln) = some v → (pyTruthy v && v.isDict) = false) :
    processLine o sess user prompt st ln = ([], st)
    ∧ processLines o sess user prompt st (ln :: rest)
        = processLines o sess user prompt st rest := by
  have h1 : processLine o sess user prompt st ln = ([], st) := by
    unfold processLine
    by_cases hemp : (pyStrip ln).isEmpty
    · simp [hemp]
    · rw [if_neg hemp]
      cases hp : parseLine (pyStrip ln) with
      | none => rfl
      | some v =>
        have hv := h _ hp
        cases v with
        | pdict kvs =>
          have hfalse : pyTruthy (.pdict kvs) = false := by
            simpa [PyVal.isDict] using hv
          simp [hfalse]
        | pnone => rfl
        | pbool b => rfl
        | pnum l => rfl
        | pstr s2 => rfl
        | plist l => rfl
        | ptuple l => rfl
        | pset l => rfl
  refine ⟨h1, ?_⟩
  simp [processLines, h1]

theorem c2_amended_parse_failure_skips_witness :
    processLine testOracle "s".data "u".data "p".data [] "oops".data = ([], []) :=
  (c2_amended_parse_failure_skips testOracle "s".data "u".data "p".data [] "oops".data []
    (fun v hv => by
      rw [show parseLine (pyStrip "oops".data) = none from rfl] at hv
      cases hv)).1

/-- **C3 counterexample**: the claim says the table maps each path to the
content of the most recent patch event for that path that had a content
field.  After patches carrying `content: "x"` and then `content: ""` for
`a.tsx`, the code's table still maps `a.tsx` to `"x"` (the empty string is
falsy, so `if content:` skips it), while the claim's table maps it to `""`. -/
theorem c3_counterexample :
    lookupPy (processLines testOracle "s".data "u".data "p".data []
        [c3PatchLine1, c3PatchLine2]).2 (.pstr "a.tsx".data)
      = some (.pstr "x".data)
    ∧ lookupPy (specC3Update (specC3Update [] (.pstr "a.tsx".data) (.pstr "x".data) .pnone)
        (.pstr "a.tsx".data) (.pstr []) .pnone) (.pstr "a.tsx".data)
      = some (.pstr [])
    ∧ some (PyVal.pstr "x".data) ≠ some (PyVal.pstr []) :=
  ⟨rfl, rfl, by simp⟩

/-- **C3 (amended)**: the running table maps each path to the content of
the most recent patch event for that path that carried a TRUTHY (non-empty,
non-null) `content`, or a string `diff` whose extraction is non-empty; a
patch whose content is falsy and whose diff yields no (or an empty)
extraction leaves the whole table unchanged, and a patch for path `f` never
modifies the entry of any other path. -/
theorem c3_amended_latest_table (st : List (PyVal × PyVal)) (f q : List Char)
    (content diff : PyVal) (hf : f ≠ []) :
    (q ≠ f →
      lookupPy (patchUpdate st (.pstr f) content diff) (.pstr q) = lookupPy st (.pstr q))
    ∧ (pyTruthy content = true →
      lookupPy (patchUpdate st (.pstr f) content diff) (.pstr f) = some content)
    ∧ (∀ d e, pyTruthy content = false → diff = .pstr d →
      try_extract_content_from_diff d = some e → e ≠ [] →
      lookupPy (patchUpdate st (.pstr f) content diff) (.pstr f) = some (.pstr e))
    ∧ (patchSavedContent content diff = none →
      patchUpdate st (.pstr f) content diff = st) := by
  have htf : pyTruthy (.pstr f) = true := by
    simp [pyTruthy, hf]
  refine ⟨?_, ?_, ?_, ?_⟩
  · intro hq
    unfold patchUpdate
    cases hsc : patchSavedContent content diff with
    | none => rfl
    | some sc =>
      simp only [htf, if_true]
      rw [lookupPy_updatePy_pstr, if_neg hq]
  · intro htc
    have hsc : patchSavedContent content diff = some content := by
      unfold patchSavedContent
      simp [htc]
    unfold patchUpdate
    rw [hsc]
    simp only [htf, if_true]
    rw [lookupPy_updatePy_pstr, if_pos rfl]
  · intro d e htc hdiff hex he
    subst hdiff
    have hdt : pyTruthy (.pstr d) = true := by
      rcases d with _ | ⟨c, d'⟩
      · rw [show try_extract_content_from_diff [] = none from rfl] at hex
        cases hex
      · simp [pyTruthy]
    have hsc : patchSavedContent content (.pstr d) = some (.pstr e) := by
      unfold patchSavedContent
      rw [htc, hdt]
      simp [hex, he]
    unfold patchUpdate
    rw [hsc]
    simp only [htf, if_true]
    rw [lookupPy_updatePy_pstr, if_pos rfl]
  · intro hsc
    unfold patchUpdate
    rw [hsc]

theorem c3_amended_latest_table_witness :
    lookupPy (patchUpdate [] (.pstr ['a']) (.pstr ['x']) .pnone) (.pstr ['a'])
      = some (.pstr ['x']) :=
  ((c3_amended_latest_table [] ['a'] ['b'] (.pstr ['x']) .pnone (by simp)).2.1) rfl

/-- **C4**: a commit event makes the server attempt to materialize the
current snapshot to local disk, then (when configured) to GitHub and to
Vercel, and no failure of these attempts aborts the stream: the state is
untouched, the remaining lines are processed exactly as they would have
been without the commit, at most one `commit_error` event is emitted for
the commit, and exactly one terminal (`commit` or `commit_error`) event. -/
theorem c4_commit_isolated_failures (o : Oracle) (sess user prompt : List Char)
    (st : List (PyVal × PyVal)) (ln : List Char) (kvs : List (PyVal × PyVal))
    (rest : List (List Char))
    (hp : parseLine (pyStrip ln) = some (.pdict kvs))
    (hne : kvs ≠ [])
    (hty : dictGet kvs "type".data = .pstr "commit".data) :
    processLines o sess user prompt st (ln :: rest)
      = (handleCommit o sess user prompt st ++ (processLines o sess user prompt st rest).1,
         (processLines o sess user prompt st rest).2)
    ∧ (handleCommit o sess user prompt st).head?
        = some (Output.diskAttempt o.uuid user sess (buildFilesToCommit o st sess))
    ∧ (o.hasGithub = true → o.disk = .ok () →
        Output.githubAttempt o.uuid (buildFilesToCommit o st sess)
          ∈ handleCommit o sess user prompt st)
    ∧ (o.hasVercel = true → o.disk = .ok () →
        (o.hasGithub = false ∨ ∃ login, o.githubCreate = .ok login) →
        Output.vercelAttempt o.uuid ∈ handleCommit o sess user prompt st)
    ∧ (handleCommit o sess user prompt st).countP isCommitError ≤ 1
    ∧ (handleCommit o sess user prompt st).countP isCommitTerminal = 1 := by
  have hdisp : processLine o sess user prompt st ln = (handleCommit o sess user prompt st, st) := by
    unfold processLine
    by_cases hemp : (pyStrip ln).isEmpty
    · rw [List.isEmpty_iff.mp hemp] at hp
      rw [show parseLine [] = none from rfl] at hp
      cases hp
    · rw [if_neg hemp, hp]
      have htr : pyTruthy (.pdict kvs) = true := by
        simp [pyTruthy, hne]
      simp only [htr, if_true]
      unfold dispatchEvent
      rw [hty]
      simp [pyValIsStr]
  refine ⟨?_, ?_, ?_, ?_, ?_, ?_⟩
  · simp [processLines, hdisp]
  · simp [handleCommit]
  · intro hgh hdisk
    simp [handleCommit, hdisk, hgh]
  · intro hv hdisk hgh
    rcases hgh with hgh | ⟨login, hgh⟩
    · simp [handleCommit, hdisk, hgh, commitTail, hv]
    · cases hghc : o.hasGithub
      · simp [handleCommit, hdisk, hghc, commitTail, hv]
      · simp [handleCommit, hdisk, hghc, hgh, commitTail, hv]
  · rcases hdisk : o.disk with e | u
    · simp [handleCommit, hdisk, isCommitError, List.countP_cons]
    · cases hghc : o.hasGithub
      · simp [handleCommit, hdisk, hghc, commitTail, isCommitError, List.countP_cons,
          List.countP_append]
        cases o.hasVercel <;> simp [List.countP_cons, isCommitError]
      · rcases hghr : o.githubCreate with e | login
        · simp [handleCommit, hdisk, hghc, hghr, isCommitError, List.countP_cons]
        · simp [handleCommit, hdisk, hghc, hghr, commitTail, isCommitError, List.countP_cons,
            List.countP_append]
          cases o.hasVercel <;> simp [List.countP_cons, isCommitError]
  · rcases hdisk : o.disk with e | u
    · simp [handleCommit, hdisk, isCommitTerminal, List.countP_cons]
    · cases hghc : o.hasGithub
      · simp [handleCommit, hdisk, hghc, commitTail, isCommitTerminal, List.countP_cons,
          List.countP_append]
        cases o.hasVercel <;> simp [List.countP_cons, isCommitTerminal]
      · rcases hghr : o.githubCreate with e | login
        · simp [handleCommit, hdisk, hghc, hghr, isCommitTerminal, List.countP_cons]
        · simp [handleCommit, hdisk, hghc, hghr, commitTail, isCommitTerminal, List.countP_cons,
            List.countP_append]
          cases o.hasVercel <;> simp [List.countP_cons, isCommitTerminal]

theorem c4_commit_isolated_failures_witness :
    processLines failDiskOracle "s".data "u".data "p".data [] [c4CommitLine, c2Line]
      = (handleCommit failDiskOracle "s".data "u".data "p".data []
          ++ (processLines failDiskOracle "s".data "u".data "p".data [] [c2Line]).1,
         (processLines failDiskOracle "s".data "u".data "p".data [] [c2Line]).2)
    ∧ (handleCommit failDiskOracle "s".data "u".data "p".data []).countP isCommitError ≤ 1 :=
  ⟨(c4_commit_isolated_failures failDiskOracle "s".data "u".data "p".data [] c4CommitLine
      [(.pstr "type".data, .pstr "commit".data)] [c2Line] rfl (by simp) rfl).1,
   (c4_commit_isolated_failures failDiskOracle "s".data "u".data "p".data [] c4CommitLine
      [(.pstr "type".data, .pstr "commit".data)] [c2Line] rfl (by simp) rfl).2.2.2.2.1⟩

/-- **C8**: the set of files materialized at a commit is never empty: if
`latest_file_contents` is empty the code falls back to the session's stored
`project_files` rows, and if that yields nothing (including the select
raising) it materializes a single generated `README.md`; the disk attempt
always receives exactly this non-empty set. -/
theorem c8_commit_files_nonempty (o : Oracle) (latest : List (PyVal × PyVal))
    (sess user prompt : List Char) :
    buildFilesToCommit o latest sess ≠ []
    ∧ (handleCommit o sess user prompt latest).head?
        = some (Output.diskAttempt o.uuid user sess (buildFilesToCommit o latest sess))
    ∧ (latest = [] → ∀ e, o.selectProjectFiles = .error e →
        buildFilesToCommit o latest sess = [(.pstr "README.md".data, commitReadme sess)])
    ∧ (latest = [] → ∀ rows, o.selectProjectFiles = .ok rows → rowsByFile rows = [] →
        buildFilesToCommit o latest sess = [(.pstr "README.md".data, commitReadme sess)]) := by
  refine ⟨?_, by simp [handleCommit], ?_, ?_⟩
  · unfold buildFilesToCommit
    by_cases hl : latest.isEmpty
    · rcases hs : o.selectProjectFiles with e | rows
      · simp [hl, hs]
      · simp only [hl, if_true, hs]
        by_cases hr : (rowsByFile rows).isEmpty
        · simp [hr]
        · have hr' : (rowsByFile rows).isEmpty = false := by simpa using hr
          simp only [hr', Bool.false_eq_true, if_false]
          simpa [List.isEmpty_iff] using hr
    · have hl' : latest.isEmpty = false := by simpa using hl
      simp only [hl', Bool.false_eq_true, if_false]
      simpa [List.isEmpty_iff] using hl
  · intro hlat e hsel
    subst hlat
    unfold buildFilesToCommit
    simp [hsel]
  · intro hlat rows hsel hby
    subst hlat
    unfold buildFilesToCommit
    simp [hsel, hby]

theorem c8_commit_files_nonempty_witness :
    buildFilesToCommit failSelectOracle [] "s".data
      = [(.pstr "README.md".data, commitReadme "s".data)] :=
  ((c8_commit_files_nonempty failSelectOracle [] "s".data "u".data "p".data).2.2.1)
    rfl "down".data rfl

theorem splitOnChar_ne_nil (sep : Char) (s : List Char) : splitOnChar sep s ≠ [] := by
  cases s with
  | nil => simp [splitOnChar]
  | cons c cs =>
    simp only [splitOnChar]
    split
    · simp
    · split <;> simp

/-- Splitting around an explicit separator occurrence splits the two halves
independently. -/
theorem splitOnChar_append_sep (sep : Char) (a b : List Char) :
    splitOnChar sep (a ++ sep :: b) = splitOnChar sep a ++ splitOnChar sep b := by
  induction a with
  | nil => simp [splitOnChar]
  | cons c a' ih =>
    by_cases hc : c = sep
    · simp [splitOnChar, hc, ih]
    · simp only [List.cons_append, splitOnChar, if_neg hc, List.append_eq]
      rcases h : splitOnChar sep a' with _ | ⟨l, ls⟩
      · exact absurd h (splitOnChar_ne_nil sep a')
      · rw [ih, h]
        rfl

theorem splitOnChar_no_sep (sep : Char) (s : List Char) (h : sep ∉ s) :
    splitOnChar sep s = [s] := by
  induction s with
  | nil => simp [splitOnChar]
  | cons c cs ih =>
    have hc : c ≠ sep := fun he => h (he ▸ List.mem_cons_self c cs)
    have hcs : sep ∉ cs := fun hm => h (List.mem_cons_of_mem c hm)
    simp [splitOnChar, hc, ih hcs]

theorem mem_splitOnChar_not_sep (sep : Char) (s : List Char) :
    ∀ p ∈ splitOnChar sep s, sep ∉ p := by
  induction s with
  | nil =>
    intro p hp
    simp [splitOnChar] at hp
    simp [hp]
  | cons c cs ih =>
    intro p hp
    by_cases hc : c = sep
    · simp only [splitOnChar, if_pos hc] at hp
      rcases List.mem_cons.mp hp with h | h
      · simp [h]
      · exact ih p h
    · simp only [splitOnChar, if_neg hc] at hp
      rcases hspl : splitOnChar sep cs with _ | ⟨l, ls⟩
      · exact absurd hspl (splitOnChar_ne_nil sep cs)
      · rw [hspl] at hp
        rcases List.mem_cons.mp hp with h | h
        · subst h
          intro hmem
          rcases List.mem_cons.mp hmem with h | h
          · exact hc h.symm
          · exact ih l (hspl ▸ List.mem_cons_self l ls) h
        · exact ih p (hspl ▸ List.mem_cons_of_mem l h)

theorem pathParts_append_sep (a b : List Char) :
    pathParts (a ++ '/' :: b) = pathParts a ++ pathParts b := by
  unfold pathParts
  rw [splitOnChar_append_sep, List.filter_append]

theorem mem_pathParts_wf (s : List Char) :
    ∀ p ∈ pathParts s, '/' ∉ p ∧ p ≠ [] ∧ p ≠ ['.'] := by
  intro p hp
  unfold pathParts at hp
  have hmem := List.mem_of_mem_filter hp
  have hpred := List.of_mem_filter hp
  refine ⟨mem_splitOnChar_not_sep '/' s p hmem, ?_, ?_⟩
  · intro he
    subst he
    simp at hpred
  · intro he
    subst he
    simp at hpred

/-- Joining well-formed parts with `/` and re-splitting gives the parts
back. -/
theorem pathParts_joinSep (ps : List (List Char))
    (h : ∀ p ∈ ps, '/' ∉ p ∧ p ≠ [] ∧ p ≠ ['.']) :
    pathParts (joinSep '/' ps) = ps := by
  induction ps with
  | nil => simp [joinSep, pathParts, splitOnChar]
  | cons l ls ih =>
    have hl := h l (List.mem_cons_self l ls)
    have hls : ∀ p ∈ ls, '/' ∉ p ∧ p ≠ [] ∧ p ≠ ['.'] :=
      fun p hp => h p (List.mem_cons_of_mem l hp)
    cases ls with
    | nil =>
      simp only [joinSep]
      unfold pathParts
      rw [splitOnChar_no_sep '/' l hl.1]
      simp [hl.2.1, hl.2.2]
    | cons l2 ls2 =>
      have : joinSep '/' (l :: l2 :: ls2) = l ++ '/' :: joinSep '/' (l2 :: ls2) := rfl
      rw [this, pathParts_append_sep, ih hls]
      unfold pathParts
      rw [splitOnChar_no_sep '/' l hl.1]
      simp [hl.2.1, hl.2.2]

theorem resolveDots_no_dots (ps : List (List Char)) (h : ['.', '.'] ∉ ps) :
    resolveDots ps = ps := by
  unfold resolveDots
  suffices hgen : ∀ acc, List.foldl
      (fun acc p => if p = ['.', '.'] then acc.dropLast else acc ++ [p]) acc ps = acc ++ ps by
    simpa using hgen []
  induction ps with
  | nil => simp
  | cons p ps' ih =>
    intro acc
    have hp : p ≠ ['.', '.'] := fun he => h (he ▸ List.mem_cons_self p ps')
    have hps' : ['.', '.'] ∉ ps' := fun hm => h (List.mem_cons_of_mem p hm)
    simp only [List.foldl_cons, if_neg hp]
    rw [ih hps' (acc ++ [p])]
    simp

/-- The head of a `/`-join of well-formed parts is never a slash. -/
theorem joinSep_not_abs (ps : List (List Char))
    (h : ∀ p ∈ ps, '/' ∉ p ∧ p ≠ [] ∧ p ≠ ['.']) :
    isAbsPath (joinSep '/' ps) = false := by
  cases ps with
  | nil => rfl
  | cons l ls =>
    have hl := h l (List.mem_cons_self l ls)
    cases ls with
    | nil =>
      show isAbsPath l = false
      cases hl0 : l with
      | nil => exact absurd hl0 hl.2.1
      | cons c l' =>
        have hc : c ≠ '/' := by
          intro he
          exact hl.1 (hl0 ▸ he ▸ List.mem_cons_self c l')
        simp [isAbsPath, hc]
    | cons l2 ls2 =>
      show isAbsPath (l ++ '/' :: joinSep '/' (l2 :: ls2)) = false
      cases hl0 : l with
      | nil => exact absurd hl0 hl.2.1
      | cons c l' =>
        have hc : c ≠ '/' := by
          intro he
          exact hl.1 (hl0 ▸ he ▸ List.mem_cons_self c l')
        simp [isAbsPath, hc]

/-- **C5 counterexample**: the claim says every entry of the mapping is
written to disk under the project base directory; but the `pathlib` join
used by `save_files_to_disk` lets an ABSOLUTE file path replace the base
entirely, so the entry `/etc/passwd` is written at `/etc/passwd`, outside
the base directory. -/
theorem c5_counterexample :
    (save_files_to_disk "u1".data "me".data "proj".data
        [("/etc/passwd".data, "x".data)]).2
      = [("/etc/passwd".data, "x".data)]
    ∧ underDir (basePath "u1".data "me".data "proj".data) "/etc/passwd".data = false :=
  ⟨rfl, rfl⟩

/-- **C5 (amended)**: `save_files_to_disk` writes each entry at the
`pathlib` join of the project base directory and the entry's path
(normalizing the path by collapsing duplicate separators and `.` segments);
every entry whose path is relative and free of `..` segments is written
under the base directory — an absolute entry path instead replaces the base
(see `c5_counterexample`). -/
theorem c5_amended_materializer (uuid user proj : List Char)
    (files : List (List Char × List Char)) (fname : List Char)
    (hbase_rel : isAbsPath (basePath uuid user proj) = false)
    (hbase_dots : ['.', '.'] ∉ pathParts (basePath uuid user proj))
    (hrel : fname.head? ≠ some '/')
    (hdots : ['.', '.'] ∉ pathParts fname) :
    (save_files_to_disk uuid user proj files).2
      = files.map (fun fc => (posixJoin (basePath uuid user proj) fc.1, fc.2))
    ∧ underDir (basePath uuid user proj)
        (posixJoin (basePath uuid user proj) fname) = true := by
  refine ⟨rfl, ?_⟩
  have hjoin : posixJoin (basePath uuid user proj) fname
      = joinSep '/' (pathParts (basePath uuid user proj) ++ pathParts fname) := by
    unfold posixJoin
    rw [if_neg hrel, pathParts_append_sep]
  have hwf : ∀ p ∈ pathParts (basePath uuid user proj) ++ pathParts fname,
      '/' ∉ p ∧ p ≠ [] ∧ p ≠ ['.'] := by
    intro p hp
    rcases List.mem_append.mp hp with h | h
    · exact mem_pathParts_wf _ p h
    · exact mem_pathParts_wf _ p h
  have hparts : pathParts (posixJoin (basePath uuid user proj) fname)
      = pathParts (basePath uuid user proj) ++ pathParts fname := by
    rw [hjoin]
    exact pathParts_joinSep _ hwf
  have habs : isAbsPath (posixJoin (basePath uuid user proj) fname) = false := by
    rw [hjoin]
    exact joinSep_not_abs _ hwf
  have hnodots : ['.', '.'] ∉ pathParts (basePath uuid user proj) ++ pathParts fname := by
    intro hm
    rcases List.mem_append.mp hm with h | h
    · exact hbase_dots h
    · exact hdots h
  unfold underDir
  rw [habs, hbase_rel, hparts]
  rw [resolveDots_no_dots _ hbase_dots, resolveDots_no_dots _ hnodots]
  simp [List.isPrefixOf_iff_prefix, List.prefix_append]

theorem c5_amended_materializer_witness :
    underDir (basePath "u".data "me".data "p".data)
      (posixJoin (basePath "u".data "me".data "p".data) "app/page.tsx".data) = true :=
  (c5_amended_materializer "u".data "me".data "p".data [] "app/page.tsx".data
    (by decide) (by decide) (by decide) (by decide)).2

/-- **C6 counterexample**: the claim lists `/create_project_files` and
`/deploy_project` among the exposed routes, but no handler for either
exists in any source file (only the `DeployRequest` model remains), while
the exposed `/create_project` and `/projects/reconstruct/{session_id}` are
outside the claimed set. -/
theorem c6_counterexample :
    Routes.allRoutes.all Routes.matchesClaimC6 = false
    ∧ "/deploy_project".data ∈ Routes.claimFixedRoutes
    ∧ "/deploy_project".data ∉ Routes.allRoutes
    ∧ "/create_project_files".data ∉ Routes.allRoutes
    ∧ "/create_project".data ∈ Routes.allRoutes := by
  refine ⟨rfl, ?_, ?_, ?_, ?_⟩ <;> decide

/-- **C6 (amended)**: the HTTP routes exposed across the repository's
source files are `/generate`, `/generate_project`, `/auth/login`,
`/auth/signup`, `/create_project`, `/projects/reconstruct/{session_id}`,
and the `/chat/*` endpoints. -/
theorem c6_amended_routes :
    Routes.allRoutes.all Routes.matchesAmendedC6 = true
    ∧ (["/generate".data, "/generate_project".data, "/auth/login".data,
        "/auth/signup".data, "/create_project".data,
        "/projects/reconstruct/\x7bsession_id\x7d".data].all
          (fun r => Routes.allRoutes.contains r)) = true :=
  ⟨rfl, rfl⟩

/-- **C7**: for every `/generate` request, the handler forwards the prompt
to the completion API (the user message of the sent conversation is exactly
the request's prompt), inserts a `projects` row containing that `user_id`,
that `prompt` and the model output, and returns that very output. -/
theorem c7_generate_roundtrip (llm : List SrcMain.ChatMessage → List Char)
    (req : SrcMain.GenRequest) :
    (SrcMain.generate llm req).2 = llm (SrcMain.generateMessages req)
    ∧ (SrcMain.generateMessages req).map SrcMain.ChatMessage.content
        = ["Você é um gerador de código confiável.".data, req.prompt]
    ∧ (SrcMain.generate llm req).1
        = ⟨"projects".data,
           [("user_id".data, req.user_id), ("prompt".data, req.prompt),
            ("llm_output".data, llm (SrcMain.generateMessages req))]⟩ :=
  ⟨rfl, rfl, rfl⟩
